import Mathlib

/-!
# batch-image-converter: the traversal / conversion driver of `main.go`

A shallow embedding of `traverse`, `convertFileIfMatch` and `openOrCreate`.

* Go strings are byte sequences (`GoString`); indices and lengths count bytes.
* The Go standard library functions the program calls (`strings.ToUpper`,
  `strings.HasSuffix`, `strings.LastIndex`, the `os` and `image` calls) are
  modelled from their documented behaviour.  The Unicode case table, the
  codecs and the ways in which the operating system may refuse an operation
  are parameters (`Env`), so general theorems hold for every table, codec and
  fault pattern.
* The file system is a map from paths to the contents of regular files.
  Distinct path strings name distinct files (no links, case-sensitive names).
* A run yields the returned error (or a run-time panic), the final file
  system and the trace of file-system, codec and logging steps performed.
-/

namespace BatchImageConverter

/-! ## Strings -/

/-- A Go string: a sequence of bytes. -/
abbrev GoString := List Nat

/-- The bytes of an ASCII literal. -/
def ascii (s : String) : GoString := s.toList.map Char.toNat

/-- The rune `utf8.RuneError` (U+FFFD). -/
def RuneError : Nat := 0xFFFD

/-- Continuation byte test (`locb <= b <= hicb`). -/
def isCont (b : Nat) : Bool := decide (0x80 ≤ b) && decide (b ≤ 0xBF)

/-- The function `utf8.DecodeRuneInString` on a string whose first byte is `b0`
and whose remaining bytes are `rest`: the rune and its width in bytes.  Bytes
that do not start a well-formed shortest-form encoding decode to `RuneError`
with width 1. -/
def decodeRune (b0 : Nat) (rest : GoString) : Nat × Nat :=
  if b0 < 0x80 then (b0, 1)
  else if b0 < 0xC2 then (RuneError, 1)
  else if b0 < 0xE0 then
    match rest with
    | b1 :: _ => if isCont b1 then ((b0 % 0x20) * 0x40 + b1 % 0x40, 2) else (RuneError, 1)
    | _ => (RuneError, 1)
  else if b0 < 0xF0 then
    match rest with
    | b1 :: b2 :: _ =>
      let lo := if b0 = 0xE0 then 0xA0 else 0x80
      let hi := if b0 = 0xED then 0x9F else 0xBF
      if decide (lo ≤ b1) && decide (b1 ≤ hi) && isCont b2 then
        ((b0 % 0x10) * 0x1000 + (b1 % 0x40) * 0x40 + b2 % 0x40, 3)
      else (RuneError, 1)
    | _ => (RuneError, 1)
  else if b0 < 0xF5 then
    match rest with
    | b1 :: b2 :: b3 :: _ =>
      let lo := if b0 = 0xF0 then 0x90 else 0x80
      let hi := if b0 = 0xF4 then 0x8F else 0xBF
      if decide (lo ≤ b1) && decide (b1 ≤ hi) && isCont b2 && isCont b3 then
        ((b0 % 0x08) * 0x40000 + (b1 % 0x40) * 0x1000 + (b2 % 0x40) * 0x40 + b3 % 0x40, 4)
      else (RuneError, 1)
    | _ => (RuneError, 1)
  else (RuneError, 1)

/-- The function `utf8.AppendRune`: the UTF-8 encoding of a rune; surrogates
and values above U+10FFFF are written as `RuneError`. -/
def encodeRune (r : Nat) : GoString :=
  if r < 0x80 then [r]
  else if r < 0x800 then [0xC0 + r / 0x40, 0x80 + r % 0x40]
  else if 0x10FFFF < r ∨ (0xD800 ≤ r ∧ r ≤ 0xDFFF) then [0xEF, 0xBF, 0xBD]
  else if r < 0x10000 then [0xE0 + r / 0x1000, 0x80 + (r / 0x40) % 0x40, 0x80 + r % 0x40]
  else [0xF0 + r / 0x40000, 0x80 + (r / 0x1000) % 0x40, 0x80 + (r / 0x40) % 0x40, 0x80 + r % 0x40]

/-- The function `unicode.ToUpper`: the ASCII branch is spelled out in the
library; above ASCII the rune is looked up in the Unicode case table, which is
the parameter `table`. -/
def unicodeToUpper (table : Nat → Nat) (r : Nat) : Nat :=
  if r ≤ 0x7F then (if 0x61 ≤ r ∧ r ≤ 0x7A then r - 0x20 else r) else table r

/-- The function `strings.Map` with a mapping that never drops a rune: every
rune of the string is decoded, mapped and re-encoded.  `skip` counts the
bytes of the current rune that are still to be passed over. -/
def mapRunes (f : Nat → Nat) : Nat → GoString → GoString
  | _, [] => []
  | 0, b :: rest => encodeRune (f (decodeRune b rest).1) ++ mapRunes f ((decodeRune b rest).2 - 1) rest
  | skip + 1, _ :: rest => mapRunes f skip rest

/-- The function `strings.ToUpper`. -/
def ToUpper (table : Nat → Nat) (s : GoString) : GoString :=
  mapRunes (unicodeToUpper table) 0 s

/-- The function `strings.HasSuffix`:
`len(s) >= len(suffix) && s[len(s)-len(suffix):] == suffix`. -/
def HasSuffix (s suffix : GoString) : Bool :=
  decide (suffix.length ≤ s.length) && (s.drop (s.length - suffix.length) == suffix)

/-- Search of `substr` in `s` at the byte offsets `k, k-1, ..., 0`. -/
def lastIndexFrom (s substr : GoString) : Nat → Int
  | 0 => if s.take substr.length == substr then 0 else -1
  | k + 1 =>
    if (s.drop (k + 1)).take substr.length == substr then ((k + 1 : Nat) : Int)
    else lastIndexFrom s substr k

/-- The function `strings.LastIndex`: the byte offset of the last occurrence
of `substr` in `s`, or `-1`. -/
def LastIndex (s substr : GoString) : Int :=
  if s.length < substr.length then -1 else lastIndexFrom s substr (s.length - substr.length)

/-- The slice expression `s[0:j]`: `none` is the run-time panic
"slice bounds out of range". -/
def sliceTo (s : GoString) (j : Int) : Option GoString :=
  if 0 ≤ j ∧ j ≤ (s.length : Int) then some (s.take j.toNat) else none

/-- An excerpt of the Unicode upper-case table (`unicode.CaseRanges`): the
entries for U+0131 (dotless i, to `I`), U+017F (long s, to `S`) and U+0250
(turned a, to U+2C6F).  Other runes are left as they are; the excerpt is only
evaluated on strings whose non-ASCII runes are among these three. -/
def caseTableExcerpt (r : Nat) : Nat :=
  if r = 0x131 then 0x49 else if r = 0x17F then 0x53 else if r = 0x250 then 0x2C6F else r

/-! ## Errors, events and the world -/

/-- Go `error` values met by the program. -/
inductive GoError where
  /-- an error produced by the operating system or by a codec library -/
  | lib (id : Nat)
  /-- the error `image.ErrFormat`, returned by `image.Decode` when no format is recognised -/
  | unknownFormat
  /-- the error `os.ErrInvalid`, from a write through a nil `*os.File` -/
  | invalidHandle
  /-- the value `errors.New("unknown suffix: " + to)` -/
  | unknownSuffix (to_ : GoString)
  deriving DecidableEq, Repr

/-- The five encoders the program links against. -/
inductive Format where
  | jpeg | png | gif | bmp | tiff
  deriving DecidableEq, Repr

/-- A decoded image: an opaque pixel buffer. -/
abbrev Image := List Nat

/-- The steps a run performs on the outside world, each with the error it
returned (`none`: success). -/
inductive Event where
  /-- the call `os.Stat(path)` -/
  | stat (path : GoString) (err : Option GoError)
  /-- the call `ioutil.ReadDir(path)` -/
  | readDir (path : GoString) (err : Option GoError)
  /-- the call `os.Open(name)` -/
  | open (name : GoString) (err : Option GoError)
  /-- the call `image.Decode(file)` -/
  | decode (err : Option GoError)
  /-- the call `os.Create(path)` -/
  | create (path : GoString) (err : Option GoError)
  /-- the call `os.OpenFile(path, os.O_WRONLY|os.O_TRUNC, 066)` -/
  | openFile (path : GoString) (err : Option GoError)
  /-- a call of the encoder of format `f` writing to the handle opened at `path` -/
  | encode (f : Format) (path : GoString) (err : Option GoError)
  /-- the call `os.Remove(name)` -/
  | remove (name : GoString) (err : Option GoError)
  /-- a call of `log.Printf`; `msg` is the fixed prefix of the message -/
  | log (msg : String)
  deriving DecidableEq, Repr

/-- The file system: the content of the regular file at each path, if any.  A
path without a file is taken not to exist; every other obstacle (a directory
in the way, missing permissions, a full disk) is a refusal listed in `Env`. -/
abbrev FS := GoString → Option (List Nat)

/-- What the program does not control: the Unicode case table, the codecs and
the operating system refusing an operation. -/
structure Env where
  /-- upper-case mapping of the runes above ASCII -/
  caseTable : Nat → Nat
  /-- the byte `os.PathSeparator` -/
  pathSeparator : Nat
  /-- the error reported for a path at which there is no file -/
  errNotExist : GoString → GoError
  /-- the call `os.Open` refused on an existing file -/
  openFails : FS → GoString → Option GoError
  /-- the result of `image.Decode` on the content read through the handle of `name` -/
  decode : GoString → List Nat → Except GoError Image
  /-- the call `os.Create` refused -/
  createFails : FS → GoString → Option GoError
  /-- the call `os.OpenFile` refused on an existing file -/
  openFileFails : FS → GoString → Option GoError
  /-- an encoder writing to an open handle: the bytes it wrote and its error -/
  encode : Format → GoString → Image → List Nat × Option GoError
  /-- the call `os.Remove` refused on an existing file -/
  removeFails : FS → GoString → Option GoError

/-- How a call ends: it returns `nil`, returns an error, or panics. -/
inductive Outcome where
  | nil
  | err (e : GoError)
  | panic
  deriving DecidableEq, Repr

/-- The result of running a function of the program. -/
structure Run where
  outcome : Outcome
  fs : FS
  trace : List Event

/-- The run `r` preceded by the steps `evs`. -/
def Run.after (evs : List Event) (r : Run) : Run :=
  ⟨r.outcome, r.fs, evs ++ r.trace⟩

/-- The call `os.Open(name)`: the content readable through the handle, or the
error (the handle is then nil). -/
def osOpen (env : Env) (fs : FS) (name : GoString) : Except GoError (List Nat) :=
  match fs name with
  | none => .error (env.errNotExist name)
  | some c =>
    match env.openFails fs name with
    | some e => .error e
    | none => .ok c

/-- The call `image.Decode(file)`.  Through a nil handle every read fails, no
format is recognised and the result is `image.ErrFormat`. -/
def imageDecode (env : Env) (name : GoString) : Except GoError (List Nat) → Except GoError Image
  | .error _ => .error GoError.unknownFormat
  | .ok c => env.decode name c

/-- The function `openOrCreate` (lines 167-172): if no file exists at
`filename` it is created, otherwise it is opened for writing and truncated.
Returns the error (`none`: a valid handle), the file system and the steps. -/
def openOrCreate (env : Env) (fs : FS) (filename : GoString) : Option GoError × FS × List Event :=
  match fs filename with
  | none =>
    match env.createFails fs filename with
    | some e => (some e, fs, [.stat filename (some (env.errNotExist filename)), .create filename (some e)])
    | none => (none, Function.update fs filename (some []),
        [.stat filename (some (env.errNotExist filename)), .create filename none])
  | some _ =>
    match env.openFileFails fs filename with
    | some e => (some e, fs, [.stat filename none, .openFile filename (some e)])
    | none => (none, Function.update fs filename (some []),
        [.stat filename none, .openFile filename none])

/-- An encoder call `Encode(outFile, imageData, ...)`.  With a valid handle the
bytes written become the content of the (truncated) destination; through a nil
handle nothing is written and the write error comes back. -/
def runEncoder (env : Env) (f : Format) (newName : GoString) (img : Image)
    (outErr : Option GoError) (fs : FS) : Option GoError × FS :=
  match outErr with
  | some _ => (some GoError.invalidHandle, fs)
  | none => ((env.encode f newName img).2, Function.update fs newName (some (env.encode f newName img).1))

/-- The call `os.Remove(name)`. -/
def osRemove (env : Env) (fs : FS) (name : GoString) : Option GoError × FS :=
  match fs name with
  | none => (some (env.errNotExist name), fs)
  | some _ =>
    match env.removeFails fs name with
    | some e => (some e, fs)
    | none => (none, Function.update fs name none)

/-! ## convertFileIfMatch -/

/-- The chain of comparisons of `strings.ToUpper(to)` with the five tokens
(lines 108, 115, 122, 129, 136). -/
def selectEncoder (upperTo : GoString) : Option Format :=
  if upperTo = ascii "JPG" then some .jpeg
  else if upperTo = ascii "PNG" then some .png
  else if upperTo = ascii "GIF" then some .gif
  else if upperTo = ascii "BMP" then some .bmp
  else if upperTo = ascii "TIFF" then some .tiff
  else none

/-- The message logged when an encoder fails (lines 113, 120, 127, 134, 141). -/
def saveLog : Format → String
  | .jpeg => "while saving jpeg: "
  | .png => "while saving png: "
  | .gif => "while saving gif: "
  | .bmp => "while saving gif: "
  | .tiff => "while saving tiff: "

/-- Lines 151-160: removal of the source. -/
def deleteStage (env : Env) (name : GoString) (quitOnError deleteOriginal : Bool) (fs : FS) : Run :=
  if deleteOriginal then
    match osRemove env fs name with
    | (some e, fs1) =>
      if quitOnError then ⟨.err e, fs1, [.remove name (some e)]⟩
      else ⟨.nil, fs1, [.remove name (some e), .log "while deleting original file "]⟩
    | (none, fs1) => ⟨.nil, fs1, [.remove name none]⟩
  else ⟨.nil, fs, []⟩

/-- Lines 108-149: the encoder dispatch.  `outErr` is the variable `err` of
line 100, which the last branch tests again. -/
def encodeStage (env : Env) (name to_ newName : GoString) (img : Image) (outErr : Option GoError)
    (quitOnError deleteOriginal : Bool) (fs : FS) : Run :=
  match selectEncoder (ToUpper env.caseTable to_) with
  | some f =>
    match runEncoder env f newName img outErr fs with
    | (some e, fs1) =>
      if quitOnError then ⟨.err e, fs1, [.encode f newName (some e)]⟩
      else Run.after [.encode f newName (some e), .log (saveLog f)]
        (deleteStage env name quitOnError deleteOriginal fs1)
    | (none, fs1) => Run.after [.encode f newName none]
        (deleteStage env name quitOnError deleteOriginal fs1)
  | none =>
    match outErr with
    | some _ =>
      if quitOnError then ⟨.err (.unknownSuffix to_), fs, []⟩
      else Run.after [.log "unknown suffix: "] (deleteStage env name quitOnError deleteOriginal fs)
    | none => deleteStage env name quitOnError deleteOriginal fs

/-- Lines 100-106: opening the destination. -/
def outStage (env : Env) (name to_ newName : GoString) (img : Image)
    (quitOnError deleteOriginal : Bool) (fs : FS) : Run :=
  match openOrCreate env fs newName with
  | (some e, fs1, evs) =>
    if quitOnError then ⟨.err e, fs1, evs⟩
    else Run.after (evs ++ [.log "while creating file: "])
      (encodeStage env name to_ newName img (some e) quitOnError deleteOriginal fs1)
  | (none, fs1, evs) => Run.after evs
      (encodeStage env name to_ newName img none quitOnError deleteOriginal fs1)

/-- Lines 94-98: decoding; a failure is returned whatever `quitOnError` is. -/
def decodeStage (env : Env) (name to_ newName : GoString) (handle : Except GoError (List Nat))
    (quitOnError deleteOriginal : Bool) (fs : FS) : Run :=
  match imageDecode env name handle with
  | .error e => ⟨.err e, fs, [.decode (some e)]⟩
  | .ok img => Run.after [.decode none] (outStage env name to_ newName img quitOnError deleteOriginal fs)

/-- Lines 83-92: opening the source; when the open fails and `quitOnError` is
false the failure is logged and the run goes on with the nil handle. -/
def openStage (env : Env) (name to_ newName : GoString)
    (quitOnError deleteOriginal : Bool) (fs : FS) : Run :=
  match osOpen env fs name with
  | .error e =>
    if quitOnError then ⟨.err e, fs, [.open name (some e)]⟩
    else Run.after [.open name (some e), .log "while opening output file: "]
      (decodeStage env name to_ newName (.error e) quitOnError deleteOriginal fs)
  | .ok c => Run.after [.open name none]
      (decodeStage env name to_ newName (.ok c) quitOnError deleteOriginal fs)

/-- The value of `indexOfLast` (line 78). -/
def indexOfLast (env : Env) (name from_ : GoString) : Int :=
  LastIndex (ToUpper env.caseTable name) (ToUpper env.caseTable from_)

/-- The function `convertFileIfMatch` (lines 76-165). -/
def convertFileIfMatch (env : Env) (name from_ to_ : GoString)
    (quitOnError deleteOriginal : Bool) (fs : FS) : Run :=
  if HasSuffix (ToUpper env.caseTable name) (ToUpper env.caseTable from_) then
    if indexOfLast env name from_ != -1 then
      match sliceTo name (indexOfLast env name from_) with
      | none => ⟨.panic, fs, []⟩
      | some front => openStage env name to_ (front ++ to_) quitOnError deleteOriginal fs
    else ⟨.nil, fs, []⟩
  else ⟨.nil, fs, []⟩

/-- The destination path `newName` of line 81, when the run gets that far. -/
def newName (env : Env) (name from_ to_ : GoString) : Option GoString :=
  if HasSuffix (ToUpper env.caseTable name) (ToUpper env.caseTable from_) then
    if indexOfLast env name from_ != -1 then
      (sliceTo name (indexOfLast env name from_)).map (· ++ to_)
    else none
  else none

/-! ## traverse and main -/

mutual
/-- What `os.Stat` and `ioutil.ReadDir` report for a path during a run. -/
inductive Node where
  /-- the call `os.Stat` fails -/
  | statErr (e : GoError)
  /-- a path that is not a directory -/
  | file
  /-- a directory whose listing fails -/
  | dirErr (e : GoError)
  /-- a directory and its entries, in the order `ioutil.ReadDir` lists them -/
  | dir (entries : Entries)
/-- The entries of a directory. -/
inductive Entries where
  | nil
  /-- an entry with `IsDir()` false -/
  | file (fname : GoString) (rest : Entries)
  /-- an entry with `IsDir()` true, and what the recursive call finds there -/
  | subdir (fname : GoString) (sub : Node) (rest : Entries)
end

mutual
/-- The function `traverse` (lines 31-74). -/
def traverse (env : Env) (from_ to_ : GoString) (quitOnError deleteOriginal : Bool) :
    Node → GoString → FS → Run
  | .statErr e, target, fs =>
    if quitOnError then ⟨.err e, fs, [.stat target (some e)]⟩
    else ⟨.nil, fs, [.stat target (some e), .log "A non-fatal error occurred: "]⟩
  | .dirErr e, target, fs =>
    if quitOnError then ⟨.err e, fs, [.stat target none, .readDir target (some e)]⟩
    else ⟨.nil, fs, [.stat target none, .readDir target (some e), .log "A non-fatal error occurred: "]⟩
  | .dir entries, target, fs =>
    Run.after [.stat target none, .readDir target none]
      (traverseEntries env from_ to_ quitOnError deleteOriginal entries target fs)
  | .file, target, fs =>
    Run.after [.stat target none]
      (convertFileIfMatch env target from_ to_ quitOnError deleteOriginal fs)
/-- The loop of lines 55-67 over the entries still to be visited. -/
def traverseEntries (env : Env) (from_ to_ : GoString) (quitOnError deleteOriginal : Bool) :
    Entries → GoString → FS → Run
  | .nil, _, fs => ⟨.nil, fs, []⟩
  | .subdir fname sub rest, target, fs =>
    match (traverse env from_ to_ quitOnError deleteOriginal sub
        (target ++ [env.pathSeparator] ++ fname) fs).outcome with
    | .panic => traverse env from_ to_ quitOnError deleteOriginal sub
        (target ++ [env.pathSeparator] ++ fname) fs
    | _ =>
      Run.after (traverse env from_ to_ quitOnError deleteOriginal sub
          (target ++ [env.pathSeparator] ++ fname) fs).trace
        (traverseEntries env from_ to_ quitOnError deleteOriginal rest target
          (traverse env from_ to_ quitOnError deleteOriginal sub
            (target ++ [env.pathSeparator] ++ fname) fs).fs)
  | .file fname rest, target, fs =>
    match (convertFileIfMatch env (target ++ [env.pathSeparator] ++ fname) from_ to_
        quitOnError deleteOriginal fs).outcome with
    | .panic => convertFileIfMatch env (target ++ [env.pathSeparator] ++ fname) from_ to_
        quitOnError deleteOriginal fs
    | .err _ =>
      if quitOnError then
        convertFileIfMatch env (target ++ [env.pathSeparator] ++ fname) from_ to_
          quitOnError deleteOriginal fs
      else
        Run.after ((convertFileIfMatch env (target ++ [env.pathSeparator] ++ fname) from_ to_
            quitOnError deleteOriginal fs).trace ++ [.log "A non-fatal error occurred: "])
          (traverseEntries env from_ to_ quitOnError deleteOriginal rest target
            (convertFileIfMatch env (target ++ [env.pathSeparator] ++ fname) from_ to_
              quitOnError deleteOriginal fs).fs)
    | .nil =>
      Run.after (convertFileIfMatch env (target ++ [env.pathSeparator] ++ fname) from_ to_
          quitOnError deleteOriginal fs).trace
        (traverseEntries env from_ to_ quitOnError deleteOriginal rest target
          (convertFileIfMatch env (target ++ [env.pathSeparator] ++ fname) from_ to_
            quitOnError deleteOriginal fs).fs)
end

/-- The exit status of `main` (lines 26-28): `log.Fatal` exits with 1, a
panic with 2. -/
def exitStatus : Outcome → Nat
  | .nil => 0
  | .err _ => 1
  | .panic => 2

/-- The function `main` after flag parsing: the exit status of the process. -/
def mainStatus (env : Env) (node : Node) (target from_ to_ : GoString)
    (quitOnError deleteOriginal : Bool) (fs : FS) : Nat :=
  exitStatus (traverse env from_ to_ quitOnError deleteOriginal node target fs).outcome

/-! ## Sample worlds -/

/-- A world without faults: content starting with the byte 1 decodes (to the
bytes that follow), any other content is not an image; an encoder writes a
tag byte for its format followed by the pixels. -/
def plainEnv : Env where
  caseTable := caseTableExcerpt
  pathSeparator := 0x2F
  errNotExist := fun _ => .lib 2
  openFails := fun _ _ => none
  decode := fun _ c => match c with
    | 1 :: px => .ok px
    | _ => .error (.lib 100)
  createFails := fun _ _ => none
  openFileFails := fun _ _ => none
  encode := fun f _ img => ((match f with | .jpeg => 10 | .png => 11 | .gif => 12 | .bmp => 13 | .tiff => 14) :: img, none)
  removeFails := fun _ _ => none

/-- The world `plainEnv` with a full disk: every encoder fails with an error
after writing nothing. -/
def diskFullEnv : Env :=
  { plainEnv with encode := fun _ _ _ => ([], some (.lib 28)) }

/-- A file system with the single file `path`, of content `c`. -/
def singleFile (path : GoString) (c : List Nat) : FS :=
  fun p => if p = path then some c else none

/-- The trace records a successful opening of a destination file. -/
def destOpened (tr : List Event) : Prop :=
  ∃ p, Event.create p none ∈ tr ∨ Event.openFile p none ∈ tr

/-- The tree of a directory `t` that holds the sub-directory `sub` (with the
file `bad.tiff`) and, listed after it, the file `z.tiff`. -/
def nestedTree : Node :=
  .dir (.subdir (ascii "sub") (.dir (.file (ascii "bad.tiff") .nil)) (.file (ascii "z.tiff") .nil))

/-- The bytes of the name `ılık.tiff` (with U+0131, dotless i, twice). -/
def dotlessName : GoString :=
  [0xC4, 0xB1, 0x6C, 0xC4, 0xB1, 0x6B, 0x2E, 0x74, 0x69, 0x66, 0x66]

/-- The bytes of the name `ɐɐa` (with U+0250, turned a, twice). -/
def turnedName : GoString := [0xC9, 0x90, 0xC9, 0x90, 0x61]

/-- The bytes of the name `ɐɐɐɐɐ.tiff`. -/
def turnedTiffName : GoString :=
  [0xC9, 0x90, 0xC9, 0x90, 0xC9, 0x90, 0xC9, 0x90, 0xC9, 0x90, 0x2E, 0x74, 0x69, 0x66, 0x66]

/-- Every byte of the string is an ASCII byte. -/
def isASCII (s : GoString) : Prop := ∀ b ∈ s, b < 0x80

/-- Whether an event creates, truncates or writes a file, or removes one. -/
def Event.modifies : Event → Bool
  | .create _ _ => true
  | .openFile _ _ => true
  | .encode _ _ _ => true
  | .remove _ _ => true
  | _ => false

/-- No event of the trace creates, truncates, writes or removes a file. -/
def modifiesNothing (tr : List Event) : Bool :=
  tr.all (fun ev => !ev.modifies)

/-- Some encoder call of the trace returned no error. -/
def encodeSucceeded (tr : List Event) : Bool :=
  tr.any (fun ev => match ev with
    | .encode _ _ none => true
    | _ => false)

/-- A file system with two files. -/
def twoFiles (p₁ : GoString) (c₁ : List Nat) (p₂ : GoString) (c₂ : List Nat) : FS :=
  fun p => if p = p₁ then some c₁ else if p = p₂ then some c₂ else none

/-- The formats of the encoder calls of a trace, in order. -/
def encodersInvoked : List Event → List Format
  | [] => []
  | .encode f _ _ :: rest => f :: encodersInvoked rest
  | _ :: rest => encodersInvoked rest

/-! ## Strings: the index of a matched suffix -/

theorem lastIndexFrom_hit (s t : GoString) (k : Nat) (h : (s.drop k).take t.length = t) :
    lastIndexFrom s t k = (k : Int) := by
  cases k with
  | zero => simp only [List.drop_zero] at h; simp [lastIndexFrom, h]
  | succ k => simp [lastIndexFrom, h]

/-- When `suffix` is a suffix of `s`, `strings.LastIndex` is the offset of that
trailing occurrence. -/
theorem LastIndex_of_HasSuffix (s t : GoString) (h : HasSuffix s t = true) :
    LastIndex s t = ((s.length - t.length : Nat) : Int) := by
  simp only [HasSuffix, Bool.and_eq_true, decide_eq_true_eq, beq_iff_eq] at h
  obtain ⟨hlen, hdrop⟩ := h
  have hnot : ¬ s.length < t.length := by omega
  simp only [LastIndex, hnot, if_false]
  apply lastIndexFrom_hit
  rw [hdrop]
  exact List.take_length t

/-! ## The stages of convertFileIfMatch -/

theorem deleteStage_off (env : Env) (name : GoString) (q : Bool) (fs : FS) :
    deleteStage env name q false fs = ⟨.nil, fs, []⟩ := by
  simp [deleteStage]

theorem deleteStage_events (env : Env) (name : GoString) (q d : Bool) (fs : FS) (ev : Event)
    (h : ev ∈ (deleteStage env name q d fs).trace) :
    (∃ err, ev = .remove name err) ∨ ∃ m, ev = .log m := by
  unfold deleteStage osRemove at h
  cases d <;> cases q <;> cases hf : fs name <;> cases hr : env.removeFails fs name <;>
    simp_all <;> rcases h with h | h <;> simp [h]

theorem deleteStage_removed (env : Env) (name p : GoString) (q d : Bool) (fs : FS)
    (h : Event.remove p none ∈ (deleteStage env name q d fs).trace) :
    p = name ∧ d = true ∧ (deleteStage env name q d fs).fs name = none := by
  unfold deleteStage osRemove at h ⊢
  cases d <;> cases q <;> cases hf : fs name <;> cases hr : env.removeFails fs name <;> simp_all

theorem deleteStage_frame (env : Env) (name p : GoString) (q d : Bool) (fs : FS)
    (hp : d = false ∨ p ≠ name) : (deleteStage env name q d fs).fs p = fs p := by
  unfold deleteStage osRemove
  rcases hp with hp | hp
  · simp [hp]
  · cases d <;> cases q <;> cases hf : fs name <;> cases hr : env.removeFails fs name <;>
      simp_all [Function.update_noteq hp]

theorem encodersInvoked_append (l₁ l₂ : List Event) :
    encodersInvoked (l₁ ++ l₂) = encodersInvoked l₁ ++ encodersInvoked l₂ := by
  induction l₁ with
  | nil => rfl
  | cons ev l ih => cases ev <;> simp [encodersInvoked, ih]

theorem deleteStage_encoders (env : Env) (name : GoString) (q d : Bool) (fs : FS) :
    encodersInvoked (deleteStage env name q d fs).trace = [] := by
  unfold deleteStage osRemove
  cases d <;> cases q <;> cases hf : fs name <;> cases hr : env.removeFails fs name <;>
    simp_all [encodersInvoked]

theorem runEncoder_frame (env : Env) (f : Format) (newName : GoString) (img : Image)
    (outErr : Option GoError) (fs : FS) (p : GoString) (hp : p ≠ newName) :
    (runEncoder env f newName img outErr fs).2 p = fs p := by
  unfold runEncoder
  cases outErr <;> simp [Function.update_noteq hp]

theorem encodeStage_events (env : Env) (name to_ newName : GoString) (img : Image)
    (outErr : Option GoError) (q d : Bool) (fs : FS) (ev : Event)
    (h : ev ∈ (encodeStage env name to_ newName img outErr q d fs).trace) :
    (∃ f err, ev = .encode f newName err) ∨ (∃ err, ev = .remove name err) ∨ ∃ m, ev = .log m := by
  unfold encodeStage at h
  split at h
  · split at h
    · split at h
      · simp at h; simp [h]
      · simp only [Run.after, List.cons_append, List.nil_append, List.mem_cons] at h
        rcases h with h | h | h
        · simp [h]
        · simp [h]
        · exact Or.inr (deleteStage_events _ _ _ _ _ _ h)
    · simp only [Run.after, List.cons_append, List.nil_append, List.mem_cons] at h
      rcases h with h | h
      · simp [h]
      · exact Or.inr (deleteStage_events _ _ _ _ _ _ h)
  · split at h
    · split at h
      · simp at h
      · simp only [Run.after, List.cons_append, List.nil_append, List.mem_cons] at h
        rcases h with h | h
        · simp [h]
        · exact Or.inr (deleteStage_events _ _ _ _ _ _ h)
    · exact Or.inr (deleteStage_events _ _ _ _ _ _ h)

/-- The encoder dispatch calls the selected encoder once, and no other. -/
theorem encodeStage_encoders (env : Env) (name to_ newName : GoString) (img : Image)
    (outErr : Option GoError) (q d : Bool) (fs : FS) :
    encodersInvoked (encodeStage env name to_ newName img outErr q d fs).trace =
      (selectEncoder (ToUpper env.caseTable to_)).toList := by
  unfold encodeStage
  split
  · rename_i f hsel
    rw [hsel]
    split
    · split
      · simp [encodersInvoked]
      · simp [Run.after, encodersInvoked, deleteStage_encoders]
    · simp [Run.after, encodersInvoked, deleteStage_encoders]
  · rename_i hsel
    rw [hsel]
    split
    · split
      · simp [encodersInvoked]
      · simp [Run.after, encodersInvoked, deleteStage_encoders]
    · simp [deleteStage_encoders]

theorem encodeStage_removed (env : Env) (name to_ newName p : GoString) (img : Image)
    (outErr : Option GoError) (q d : Bool) (fs : FS)
    (h : Event.remove p none ∈ (encodeStage env name to_ newName img outErr q d fs).trace) :
    p = name ∧ d = true ∧ (encodeStage env name to_ newName img outErr q d fs).fs name = none ∧
      (q = true → selectEncoder (ToUpper env.caseTable to_) ≠ none →
        ∃ f, selectEncoder (ToUpper env.caseTable to_) = some f ∧ Event.encode f newName none ∈
          (encodeStage env name to_ newName img outErr q d fs).trace) := by
  revert h
  unfold encodeStage
  cases hsel : selectEncoder (ToUpper env.caseTable to_) with
  | some f =>
    dsimp only
    cases hrun : runEncoder env f newName img outErr fs with
    | mk oe fs1 =>
      cases oe <;> cases q <;> simp [Run.after] <;> intro h <;>
        obtain ⟨h1, h2, h3⟩ := deleteStage_removed _ _ _ _ _ _ h <;> exact ⟨h1, h2, h3⟩
  | none =>
    cases outErr <;> cases q <;> simp [Run.after] <;> intro h <;>
      obtain ⟨h1, h2, h3⟩ := deleteStage_removed _ _ _ _ _ _ h <;> exact ⟨h1, h2, h3⟩

theorem encodeStage_frame (env : Env) (name to_ newName p : GoString) (img : Image)
    (outErr : Option GoError) (q d : Bool) (fs : FS)
    (hp : d = false ∨ p ≠ name) (hn : p ≠ newName) :
    (encodeStage env name to_ newName img outErr q d fs).fs p = fs p := by
  unfold encodeStage
  split
  · rename_i f hsel
    have hfr := runEncoder_frame env f newName img outErr fs p hn
    split
    · rename_i e fs1 hrun
      rw [hrun] at hfr
      split
      · exact hfr
      · simp [Run.after, deleteStage_frame _ _ _ _ _ _ hp]; exact hfr
    · rename_i fs1 hrun
      rw [hrun] at hfr
      simp [Run.after, deleteStage_frame _ _ _ _ _ _ hp]; exact hfr
  · split
    · split
      · rfl
      · simp [Run.after, deleteStage_frame _ _ _ _ _ _ hp]
    · simp [deleteStage_frame _ _ _ _ _ _ hp]

/-- With an unknown token, a valid destination handle and no deletion, the
dispatch does nothing and reports success. -/
theorem encodeStage_unknown (env : Env) (name to_ newName : GoString) (img : Image)
    (q : Bool) (fs : FS) (hsel : selectEncoder (ToUpper env.caseTable to_) = none) :
    encodeStage env name to_ newName img none q false fs = ⟨.nil, fs, []⟩ := by
  unfold encodeStage
  simp [hsel, deleteStage_off]

theorem openOrCreate_frame (env : Env) (fs : FS) (fn p : GoString) (hp : p ≠ fn) :
    (openOrCreate env fs fn).2.1 p = fs p := by
  unfold openOrCreate
  cases hf : fs fn <;> cases hc : env.createFails fs fn <;> cases ho : env.openFileFails fs fn <;>
    simp [Function.update_noteq hp]

theorem openOrCreate_events (env : Env) (fs : FS) (fn : GoString) (ev : Event)
    (h : ev ∈ (openOrCreate env fs fn).2.2) :
    (∃ err, ev = .stat fn err) ∨ (∃ err, ev = .create fn err) ∨ ∃ err, ev = .openFile fn err := by
  revert h
  unfold openOrCreate
  cases hf : fs fn <;> cases hc : env.createFails fs fn <;> cases ho : env.openFileFails fs fn <;>
    simp <;> intro h <;> rcases h with h | h <;> simp [h]

theorem openOrCreate_failed (env : Env) (fs : FS) (fn : GoString) (e : GoError)
    (h : (openOrCreate env fs fn).1 = some e) :
    (openOrCreate env fs fn).2.1 = fs ∧ ¬ destOpened (openOrCreate env fs fn).2.2 := by
  revert h
  unfold openOrCreate destOpened
  cases hf : fs fn <;> cases hc : env.createFails fs fn <;> cases ho : env.openFileFails fs fn <;>
    simp

theorem destOpened_append (l₁ l₂ : List Event) :
    destOpened (l₁ ++ l₂) ↔ destOpened l₁ ∨ destOpened l₂ := by
  unfold destOpened
  constructor
  · rintro ⟨p, h | h⟩ <;> rw [List.mem_append] at h <;> rcases h with h | h
    · exact Or.inl ⟨p, Or.inl h⟩
    · exact Or.inr ⟨p, Or.inl h⟩
    · exact Or.inl ⟨p, Or.inr h⟩
    · exact Or.inr ⟨p, Or.inr h⟩
  · rintro (⟨p, h | h⟩ | ⟨p, h | h⟩)
    · exact ⟨p, Or.inl (List.mem_append_left _ h)⟩
    · exact ⟨p, Or.inr (List.mem_append_left _ h)⟩
    · exact ⟨p, Or.inl (List.mem_append_right _ h)⟩
    · exact ⟨p, Or.inr (List.mem_append_right _ h)⟩

theorem encodeStage_not_destOpened (env : Env) (name to_ newName : GoString) (img : Image)
    (outErr : Option GoError) (q d : Bool) (fs : FS) :
    ¬ destOpened (encodeStage env name to_ newName img outErr q d fs).trace := by
  rintro ⟨p, h | h⟩ <;>
    rcases encodeStage_events _ _ _ _ _ _ _ _ _ _ h with ⟨f, err, h'⟩ | ⟨err, h'⟩ | ⟨m, h'⟩ <;>
    cases h'

theorem openOrCreate_encoders (env : Env) (fs : FS) (fn : GoString) :
    encodersInvoked (openOrCreate env fs fn).2.2 = [] := by
  unfold openOrCreate
  cases hf : fs fn <;> cases hc : env.createFails fs fn <;> cases ho : env.openFileFails fs fn <;>
    simp [encodersInvoked]

theorem outStage_no_decode (env : Env) (name to_ newName : GoString) (img : Image)
    (q d : Bool) (fs : FS) (x : Option GoError) :
    Event.decode x ∉ (outStage env name to_ newName img q d fs).trace := by
  intro h
  unfold outStage at h
  have hev := openOrCreate_events env fs newName
  cases hoc : openOrCreate env fs newName with
  | mk oe rest =>
    cases rest with
    | mk fs1 evs =>
      rw [hoc] at hev
      simp only [hoc] at h
      have hA : Event.decode x ∉ evs := by
        intro hx
        rcases hev _ hx with ⟨err, h'⟩ | ⟨err, h'⟩ | ⟨err, h'⟩ <;> cases h'
      have hB : ∀ oe', Event.decode x ∉ (encodeStage env name to_ newName img oe' q d fs1).trace := by
        intro oe' hx
        rcases encodeStage_events _ _ _ _ _ _ _ _ _ _ hx with ⟨f, err, h'⟩ | ⟨err, h'⟩ | ⟨m, h'⟩ <;>
          cases h'
      cases oe <;> cases q <;> simp [Run.after] at h
      all_goals first
        | exact hA h
        | (rcases h with h | h
           · exact hA h
           · exact hB _ h)

theorem outStage_encoders (env : Env) (name to_ newName : GoString) (img : Image)
    (q d : Bool) (fs : FS) (h : destOpened (outStage env name to_ newName img q d fs).trace) :
    encodersInvoked (outStage env name to_ newName img q d fs).trace =
      (selectEncoder (ToUpper env.caseTable to_)).toList := by
  revert h
  unfold outStage
  have hfail := openOrCreate_failed env fs newName
  have henc := openOrCreate_encoders env fs newName
  cases hoc : openOrCreate env fs newName with
  | mk oe rest =>
    cases rest with
    | mk fs1 evs =>
      rw [hoc] at hfail henc
      cases oe with
      | none =>
        intro _
        simp [Run.after, encodersInvoked_append, henc, encodeStage_encoders]
      | some e =>
        have hno := (hfail e rfl).2
        cases q
        · intro _
          simp [Run.after, encodersInvoked_append, henc, encodeStage_encoders, encodersInvoked]
        · intro h
          exact absurd h hno

theorem outStage_removed (env : Env) (name to_ newName p : GoString) (img : Image)
    (q d : Bool) (fs : FS)
    (h : Event.remove p none ∈ (outStage env name to_ newName img q d fs).trace) :
    p = name ∧ d = true ∧ (outStage env name to_ newName img q d fs).fs name = none ∧
      (q = true → selectEncoder (ToUpper env.caseTable to_) ≠ none →
        ∃ f, selectEncoder (ToUpper env.caseTable to_) = some f ∧
          Event.encode f newName none ∈ (outStage env name to_ newName img q d fs).trace) := by
  revert h
  unfold outStage
  have hev := openOrCreate_events env fs newName
  cases hoc : openOrCreate env fs newName with
  | mk oe rest =>
    cases rest with
    | mk fs1 evs =>
      rw [hoc] at hev
      have hA : Event.remove p none ∉ evs := by
        intro hx
        rcases hev _ hx with ⟨err, h'⟩ | ⟨err, h'⟩ | ⟨err, h'⟩ <;> cases h'
      cases oe <;> cases q <;> simp [Run.after, hA] <;> intro h <;>
        obtain ⟨h1, h2, h3, h4⟩ := encodeStage_removed _ _ _ _ _ _ _ _ _ _ h <;>
        first
          | exact ⟨h1, h2, h3⟩
          | (refine ⟨h1, h2, h3, ?_⟩
             intro hk
             obtain ⟨f, hs, hf⟩ := h4 rfl hk
             exact ⟨f, hs, Or.inr hf⟩)

theorem outStage_frame (env : Env) (name to_ newName p : GoString) (img : Image)
    (q d : Bool) (fs : FS) (hp : d = false ∨ p ≠ name) (hn : p ≠ newName) :
    (outStage env name to_ newName img q d fs).fs p = fs p := by
  unfold outStage
  have hfr := openOrCreate_frame env fs newName p hn
  cases hoc : openOrCreate env fs newName with
  | mk oe rest =>
    cases rest with
    | mk fs1 evs =>
      rw [hoc] at hfr
      cases oe <;> cases q <;> simp [Run.after, encodeStage_frame _ _ _ _ _ _ _ _ _ _ hp hn] <;>
        exact hfr

theorem outStage_unknown (env : Env) (name to_ newName : GoString) (img : Image)
    (q : Bool) (fs : FS) (hsel : selectEncoder (ToUpper env.caseTable to_) = none)
    (h : destOpened (outStage env name to_ newName img q false fs).trace) :
    (outStage env name to_ newName img q false fs).outcome = .nil := by
  revert h
  unfold outStage
  have hfail := openOrCreate_failed env fs newName
  cases hoc : openOrCreate env fs newName with
  | mk oe rest =>
    cases rest with
    | mk fs1 evs =>
      rw [hoc] at hfail
      cases oe with
      | none =>
        intro _
        simp [Run.after, encodeStage_unknown _ _ _ _ _ _ _ hsel]
      | some e =>
        have hno := (hfail e rfl).2
        intro h
        cases q
        · simp only [Run.after, Bool.false_eq_true, if_false] at h
          rw [List.append_assoc, destOpened_append, destOpened_append] at h
          rcases h with h | h | h
          · exact absurd h hno
          · obtain ⟨p, h | h⟩ := h <;> simp at h
          · exact absurd h (encodeStage_not_destOpened _ _ _ _ _ _ _ _ _)
        · exact absurd h hno

/-- With `deleteOriginal` set, the removal of the source is attempted: it
either succeeds, leaving no file at `name`, or fails with an error. -/
theorem deleteStage_attempt (env : Env) (name : GoString) (q : Bool) (fs : FS) :
    (Event.remove name none ∈ (deleteStage env name q true fs).trace ∧
      (deleteStage env name q true fs).fs name = none) ∨
    ∃ e, Event.remove name (some e) ∈ (deleteStage env name q true fs).trace := by
  unfold deleteStage osRemove
  cases q <;> cases hf : fs name <;> cases hr : env.removeFails fs name <;> simp_all

theorem deleteStage_no_encode (env : Env) (name nn : GoString) (q d : Bool) (fs : FS)
    (f : Format) (err : Option GoError) :
    Event.encode f nn err ∉ (deleteStage env name q d fs).trace := by
  intro hx
  rcases deleteStage_events _ _ _ _ _ _ hx with ⟨e, h'⟩ | ⟨m, h'⟩ <;> cases h'

/-- A known token makes the dispatch call the selected encoder. -/
theorem encodeStage_invokes (env : Env) (name to_ newName : GoString) (img : Image)
    (outErr : Option GoError) (q d : Bool) (fs : FS) (f : Format)
    (hsel : selectEncoder (ToUpper env.caseTable to_) = some f) :
    ∃ err, Event.encode f newName err ∈
      (encodeStage env name to_ newName img outErr q d fs).trace := by
  unfold encodeStage
  rw [hsel]
  dsimp only
  cases hrun : runEncoder env f newName img outErr fs with
  | mk oe fs1 =>
    cases oe with
    | none => exact ⟨none, by simp [Run.after]⟩
    | some e => exact ⟨some e, by cases q <;> simp [Run.after]⟩

/-- After an encoder call that returned no error, with `deleteOriginal` set,
the removal of the source is attempted. -/
theorem encodeStage_attempt (env : Env) (name to_ newName nn : GoString) (img : Image)
    (outErr : Option GoError) (q : Bool) (fs : FS) (f : Format)
    (h : Event.encode f nn none ∈
      (encodeStage env name to_ newName img outErr q true fs).trace) :
    (Event.remove name none ∈ (encodeStage env name to_ newName img outErr q true fs).trace ∧
      (encodeStage env name to_ newName img outErr q true fs).fs name = none) ∨
    ∃ e, Event.remove name (some e) ∈
      (encodeStage env name to_ newName img outErr q true fs).trace := by
  revert h
  unfold encodeStage
  cases hsel : selectEncoder (ToUpper env.caseTable to_) with
  | some g =>
    dsimp only
    cases hrun : runEncoder env g newName img outErr fs with
    | mk oe fs1 =>
      cases oe with
      | none =>
        intro _
        rcases deleteStage_attempt env name q fs1 with ⟨h1, h2⟩ | ⟨e, h1⟩
        · exact Or.inl ⟨by simp [Run.after, h1], by simpa [Run.after] using h2⟩
        · exact Or.inr ⟨e, by simp [Run.after, h1]⟩
      | some e =>
        cases q
        · intro h
          simp [Run.after] at h
          exact absurd h (deleteStage_no_encode _ _ _ _ _ _ _ _)
        · intro h
          simp at h
  | none =>
    cases outErr with
    | none =>
      intro h
      exact absurd h (deleteStage_no_encode _ _ _ _ _ _ _ _)
    | some e =>
      cases q
      · intro h
        simp [Run.after] at h
        exact absurd h (deleteStage_no_encode _ _ _ _ _ _ _ _)
      · intro h
        simp at h

theorem openOrCreate_no_late_event (env : Env) (fs : FS) (fn : GoString) (ev : Event)
    (h : ev ∈ (openOrCreate env fs fn).2.2) :
    (∀ f nn err, ev ≠ .encode f nn err) ∧ (∀ p err, ev ≠ .remove p err) := by
  rcases openOrCreate_events env fs fn ev h with ⟨e, h'⟩ | ⟨e, h'⟩ | ⟨e, h'⟩ <;>
    subst h' <;> constructor <;> intros <;> simp

theorem outStage_attempt (env : Env) (name to_ newName nn : GoString) (img : Image)
    (q : Bool) (fs : FS) (f : Format)
    (h : Event.encode f nn none ∈ (outStage env name to_ newName img q true fs).trace) :
    (Event.remove name none ∈ (outStage env name to_ newName img q true fs).trace ∧
      (outStage env name to_ newName img q true fs).fs name = none) ∨
    ∃ e, Event.remove name (some e) ∈ (outStage env name to_ newName img q true fs).trace := by
  revert h
  unfold outStage
  have hev := openOrCreate_no_late_event env fs newName
  cases hoc : openOrCreate env fs newName with
  | mk oe rest =>
    cases rest with
    | mk fs1 evs =>
      rw [hoc] at hev
      have hA : Event.encode f nn none ∉ evs := fun hx => (hev _ hx).1 f nn none rfl
      have key : ∀ oe', Event.encode f nn none ∈
          (encodeStage env name to_ newName img oe' q true fs1).trace →
          ∀ pre : List Event,
          (Event.remove name none ∈
              (Run.after pre (encodeStage env name to_ newName img oe' q true fs1)).trace ∧
            (Run.after pre (encodeStage env name to_ newName img oe' q true fs1)).fs name = none) ∨
          ∃ e, Event.remove name (some e) ∈
            (Run.after pre (encodeStage env name to_ newName img oe' q true fs1)).trace := by
        intro oe' hx pre
        rcases encodeStage_attempt _ _ _ _ _ _ _ _ _ _ hx with ⟨h1, h2⟩ | ⟨e, h1⟩
        · exact Or.inl ⟨by simp [Run.after, h1], by simpa [Run.after] using h2⟩
        · exact Or.inr ⟨e, by simp [Run.after, h1]⟩
      cases oe with
      | none =>
        intro h
        simp only [Run.after, List.mem_append] at h
        rcases h with h | h
        · exact absurd h hA
        · exact key _ h _
      | some e =>
        cases q
        · intro h
          simp only [Run.after, Bool.false_eq_true, if_false, List.mem_append, List.mem_singleton]
            at h
          rcases h with (h | h) | h
          · exact absurd h hA
          · cases h
          · exact key _ h _
        · intro h
          exact absurd h hA

theorem outStage_removed_invoked (env : Env) (name to_ newName p : GoString) (img : Image)
    (q d : Bool) (fs : FS) (f : Format)
    (hsel : selectEncoder (ToUpper env.caseTable to_) = some f)
    (h : Event.remove p none ∈ (outStage env name to_ newName img q d fs).trace) :
    ∃ err, Event.encode f newName err ∈ (outStage env name to_ newName img q d fs).trace := by
  revert h
  unfold outStage
  have hev := openOrCreate_no_late_event env fs newName
  cases hoc : openOrCreate env fs newName with
  | mk oe rest =>
    cases rest with
    | mk fs1 evs =>
      rw [hoc] at hev
      have hA : Event.remove p none ∉ evs := fun hx => (hev _ hx).2 p none rfl
      cases oe with
      | none =>
        intro _
        obtain ⟨err, he⟩ := encodeStage_invokes env name to_ newName img none q d fs1 f hsel
        exact ⟨err, by simp [Run.after, he]⟩
      | some e =>
        cases q
        · intro _
          obtain ⟨err, he⟩ := encodeStage_invokes env name to_ newName img (some e) false d fs1 f hsel
          exact ⟨err, by simp [Run.after, he]⟩
        · intro h
          exact absurd h hA

/-- The ways a call of `openStage` can go, up to the decoding. -/
theorem openStage_cases (env : Env) (name to_ nn : GoString) (q d : Bool) (fs : FS) :
    (∃ e, q = true ∧ openStage env name to_ nn q d fs = ⟨.err e, fs, [.open name (some e)]⟩) ∨
    (∃ e, q = false ∧ openStage env name to_ nn q d fs =
      ⟨.err .unknownFormat, fs, [.open name (some e), .log "while opening output file: ",
        .decode (some .unknownFormat)]⟩) ∨
    (∃ c e, osOpen env fs name = .ok c ∧ env.decode name c = .error e ∧
      openStage env name to_ nn q d fs = ⟨.err e, fs, [.open name none, .decode (some e)]⟩) ∨
    (∃ c img, osOpen env fs name = .ok c ∧ env.decode name c = .ok img ∧
      openStage env name to_ nn q d fs =
        Run.after [.open name none, .decode none] (outStage env name to_ nn img q d fs)) := by
  unfold openStage decodeStage
  cases hop : osOpen env fs name with
  | error e =>
    cases q
    · right; left
      exact ⟨e, rfl, by simp [imageDecode, Run.after]⟩
    · left
      exact ⟨e, rfl, by simp⟩
  | ok c =>
    right; right
    cases hd : env.decode name c with
    | error e =>
      left
      exact ⟨c, e, rfl, hd, by simp [imageDecode, hd, Run.after]⟩
    | ok img =>
      right
      exact ⟨c, img, rfl, hd, by simp [imageDecode, hd, Run.after]⟩

/-- The ways a call of `convertFileIfMatch` can begin. -/
theorem convertFileIfMatch_cases (env : Env) (name from_ to_ : GoString) (q d : Bool) (fs : FS) :
    (HasSuffix (ToUpper env.caseTable name) (ToUpper env.caseTable from_) = false ∧
      newName env name from_ to_ = none ∧
      convertFileIfMatch env name from_ to_ q d fs = ⟨.nil, fs, []⟩) ∨
    (HasSuffix (ToUpper env.caseTable name) (ToUpper env.caseTable from_) = true ∧
      sliceTo name (indexOfLast env name from_) = none ∧
      newName env name from_ to_ = none ∧
      convertFileIfMatch env name from_ to_ q d fs = ⟨.panic, fs, []⟩) ∨
    (HasSuffix (ToUpper env.caseTable name) (ToUpper env.caseTable from_) = true ∧
      ∃ front, sliceTo name (indexOfLast env name from_) = some front ∧
        newName env name from_ to_ = some (front ++ to_) ∧
        convertFileIfMatch env name from_ to_ q d fs =
          openStage env name to_ (front ++ to_) q d fs) := by
  unfold convertFileIfMatch newName
  cases hm : HasSuffix (ToUpper env.caseTable name) (ToUpper env.caseTable from_) with
  | false => left; simp
  | true =>
    right
    have hidx : (indexOfLast env name from_ != -1) = true := by
      unfold indexOfLast
      rw [LastIndex_of_HasSuffix _ _ hm]
      simp only [bne_iff_ne, ne_eq]
      omega
    cases hs : sliceTo name (indexOfLast env name from_) with
    | none => left; simp [hidx]
    | some front => right; simp [hidx]

/-! ## General facts about convertFileIfMatch -/

/-- Without a suffix match the call returns `nil` and does nothing. -/
theorem convertFileIfMatch_noMatch (env : Env) (name from_ to_ : GoString) (q d : Bool) (fs : FS)
    (h : HasSuffix (ToUpper env.caseTable name) (ToUpper env.caseTable from_) = false) :
    convertFileIfMatch env name from_ to_ q d fs = ⟨.nil, fs, []⟩ := by
  simp [convertFileIfMatch, h]

/-- When the destination path is derived, the first step of the call is
`os.Open(name)`. -/
theorem convertFileIfMatch_opens_first (env : Env) (name from_ to_ nn : GoString) (q d : Bool)
    (fs : FS) (h : newName env name from_ to_ = some nn) :
    ∃ err, (convertFileIfMatch env name from_ to_ q d fs).trace.head? = some (.open name err) := by
  rcases convertFileIfMatch_cases env name from_ to_ q d fs with
    ⟨_, hn, _⟩ | ⟨_, _, hn, _⟩ | ⟨_, front, _, _, hc⟩
  · rw [hn] at h; cases h
  · rw [hn] at h; cases h
  · rw [hc]
    rcases openStage_cases env name to_ (front ++ to_) q d fs with
      ⟨e, _, ho⟩ | ⟨e, _, ho⟩ | ⟨c, e, _, _, ho⟩ | ⟨c, img, _, _, ho⟩ <;>
      rw [ho] <;> simp [Run.after]

/-- Once a destination was opened, the encoders called are exactly the one
selected by the upper-cased token. -/
theorem convertFileIfMatch_encoders (env : Env) (name from_ to_ : GoString) (q d : Bool) (fs : FS)
    (h : destOpened (convertFileIfMatch env name from_ to_ q d fs).trace) :
    encodersInvoked (convertFileIfMatch env name from_ to_ q d fs).trace =
      (selectEncoder (ToUpper env.caseTable to_)).toList := by
  rcases convertFileIfMatch_cases env name from_ to_ q d fs with
    ⟨_, _, hc⟩ | ⟨_, _, _, hc⟩ | ⟨_, front, _, _, hc⟩
  · rw [hc] at h; obtain ⟨p, h | h⟩ := h <;> simp at h
  · rw [hc] at h; obtain ⟨p, h | h⟩ := h <;> simp at h
  · rw [hc] at h ⊢
    rcases openStage_cases env name to_ (front ++ to_) q d fs with
      ⟨e, _, ho⟩ | ⟨e, _, ho⟩ | ⟨c, e, _, _, ho⟩ | ⟨c, img, _, _, ho⟩
    · rw [ho] at h; obtain ⟨p, h | h⟩ := h <;> simp at h
    · rw [ho] at h; obtain ⟨p, h | h⟩ := h <;> simp at h
    · rw [ho] at h; obtain ⟨p, h | h⟩ := h <;> simp at h
    · rw [ho] at h ⊢
      simp only [Run.after] at h ⊢
      rw [destOpened_append] at h
      rcases h with h | h
      · obtain ⟨p, h | h⟩ := h <;> simp at h
      · rw [encodersInvoked_append, outStage_encoders _ _ _ _ _ _ _ _ h]
        simp [encodersInvoked]

/-! ## Names on which upper-casing keeps the byte length -/

theorem unicodeToUpper_ascii (table : Nat → Nat) (r : Nat) (h : r < 0x80) :
    unicodeToUpper table r < 0x80 := by
  unfold unicodeToUpper
  split
  · split <;> omega
  · omega

theorem mapRunes_length_of_isASCII (f : Nat → Nat) (hf : ∀ r, r < 0x80 → f r < 0x80)
    (s : GoString) (hs : isASCII s) : (mapRunes f 0 s).length = s.length := by
  induction s with
  | nil => simp [mapRunes]
  | cons b rest ih =>
    have hb : b < 0x80 := hs b (List.mem_cons_self _ _)
    have hrest : isASCII rest := fun x hx => hs x (List.mem_cons_of_mem _ hx)
    have hdec : decodeRune b rest = (b, 1) := by simp [decodeRune, hb]
    have henc : encodeRune (f b) = [f b] := by simp [encodeRune, hf b hb]
    simp [mapRunes, hdec, henc, ih hrest]

/-- On an ASCII string `strings.ToUpper` keeps the number of bytes. -/
theorem ToUpper_length_of_isASCII (table : Nat → Nat) (s : GoString) (hs : isASCII s) :
    (ToUpper table s).length = s.length :=
  mapRunes_length_of_isASCII _ (unicodeToUpper_ascii table) s hs

/-- When the suffix matches, `indexOfLast` is the start of the trailing
occurrence in the upper-cased name; it is never `-1`. -/
theorem indexOfLast_of_match (env : Env) (name from_ : GoString)
    (h : HasSuffix (ToUpper env.caseTable name) (ToUpper env.caseTable from_) = true) :
    indexOfLast env name from_ =
      (((ToUpper env.caseTable name).length - (ToUpper env.caseTable from_).length : Nat) : Int) ∧
    indexOfLast env name from_ ≠ -1 ∧ 0 ≤ indexOfLast env name from_ := by
  unfold indexOfLast
  rw [LastIndex_of_HasSuffix _ _ h]
  refine ⟨rfl, ?_, ?_⟩ <;> omega

/-- For ASCII `name` and `from` with a suffix match, the output path is `name`
with its trailing `len(from)` bytes replaced by `to`, and the slice is in
bounds. -/
theorem newName_of_isASCII (env : Env) (name from_ to_ : GoString)
    (hn : isASCII name) (hf : isASCII from_)
    (h : HasSuffix (ToUpper env.caseTable name) (ToUpper env.caseTable from_) = true) :
    newName env name from_ to_ = some (name.take (name.length - from_.length) ++ to_) := by
  obtain ⟨hidx, hne, _⟩ := indexOfLast_of_match env name from_ h
  rw [ToUpper_length_of_isASCII _ _ hn, ToUpper_length_of_isASCII _ _ hf] at hidx
  have hb : (indexOfLast env name from_ != -1) = true := by simpa using hne
  simp only [newName, h, hb, if_true]
  rw [hidx]
  have hle : ((name.length - from_.length : Nat) : Int) ≤ (name.length : Int) := by omega
  simp [sliceTo, hle]

/-- A failing conversion of a direct entry with `quitOnError = true` ends the
loop: the error is returned and the remaining entries are not visited. -/
theorem traverseEntries_direct_failure (env : Env) (from_ to_ fname target : GoString)
    (d : Bool) (rest : Entries) (fs : FS) (e : GoError)
    (h : (convertFileIfMatch env (target ++ [env.pathSeparator] ++ fname) from_ to_ true d
      fs).outcome = .err e) :
    traverseEntries env from_ to_ true d (.file fname rest) target fs =
      convertFileIfMatch env (target ++ [env.pathSeparator] ++ fname) from_ to_ true d fs := by
  rw [traverseEntries, h]
  simp

/-- For a file target whose name matches (the output path `nn` is derived)
and whose content does not decode, `traverse` with `quitOnError = false`
returns an error: the decode error `e` when the file opens, `image.ErrFormat`
when the open was refused.  The process exits with status 1 and nothing is
created, truncated, written or removed. -/
theorem traverse_file_target_decode_failure (env : Env) (target from_ to_ nn : GoString)
    (deleteOriginal : Bool) (fs : FS) (c : List Nat) (e : GoError)
    (hfile : fs target = some c) (hnn : newName env target from_ to_ = some nn)
    (hdec : env.decode target c = .error e) :
    (∃ e', (traverse env from_ to_ false deleteOriginal .file target fs).outcome = .err e' ∧
      (env.openFails fs target = none → e' = e)) ∧
    mainStatus env .file target from_ to_ false deleteOriginal fs = 1 ∧
    (traverse env from_ to_ false deleteOriginal .file target fs).fs = fs ∧
    modifiesNothing (traverse env from_ to_ false deleteOriginal .file target fs).trace = true := by
  rcases convertFileIfMatch_cases env target from_ to_ false deleteOriginal fs with
    ⟨_, hn, _⟩ | ⟨_, _, hn, _⟩ | ⟨_, front, _, _, hc⟩
  · rw [hn] at hnn; cases hnn
  · rw [hn] at hnn; cases hnn
  · cases hopen : env.openFails fs target with
    | none =>
      have hop : osOpen env fs target = .ok c := by simp [osOpen, hfile, hopen]
      have hrun : convertFileIfMatch env target from_ to_ false deleteOriginal fs =
          ⟨.err e, fs, [.open target none, .decode (some e)]⟩ := by
        rw [hc]
        simp [openStage, decodeStage, hop, imageDecode, hdec, Run.after]
      simp [mainStatus, traverse, hrun, Run.after, exitStatus, modifiesNothing, Event.modifies]
    | some e0 =>
      have hop : osOpen env fs target = .error e0 := by simp [osOpen, hfile, hopen]
      have hrun : convertFileIfMatch env target from_ to_ false deleteOriginal fs =
          ⟨.err .unknownFormat, fs, [.open target (some e0),
            .log "while opening output file: ", .decode (some .unknownFormat)]⟩ := by
        rw [hc]
        simp [openStage, decodeStage, hop, imageDecode, Run.after]
      simp [mainStatus, traverse, hrun, Run.after, exitStatus, modifiesNothing, Event.modifies]

/-! ## The claims -/

/-- C5 (confirmed).  If the image decode step of `convertFileIfMatch` fails
with error `e` (for any name, tokens and flag values), the call returns `e`,
the file system is as before, and no step of the run created, truncated or
wrote a file or removed one. -/
theorem C5_decode_failure_returned_before_output (env : Env) (name from_ to_ : GoString)
    (quitOnError deleteOriginal : Bool) (fs : FS) (e : GoError)
    (h : Event.decode (some e) ∈
      (convertFileIfMatch env name from_ to_ quitOnError deleteOriginal fs).trace) :
    (convertFileIfMatch env name from_ to_ quitOnError deleteOriginal fs).outcome = .err e ∧
    (convertFileIfMatch env name from_ to_ quitOnError deleteOriginal fs).fs = fs ∧
    modifiesNothing (convertFileIfMatch env name from_ to_ quitOnError deleteOriginal fs).trace
      = true := by
  rcases convertFileIfMatch_cases env name from_ to_ quitOnError deleteOriginal fs with
    ⟨_, _, hc⟩ | ⟨_, _, _, hc⟩ | ⟨_, front, _, _, hc⟩
  · rw [hc] at h; simp at h
  · rw [hc] at h; simp at h
  · rw [hc] at h ⊢
    rcases openStage_cases env name to_ (front ++ to_) quitOnError deleteOriginal fs with
      ⟨e', _, ho⟩ | ⟨e', _, ho⟩ | ⟨c, e', _, _, ho⟩ | ⟨c, img, _, _, ho⟩
    · rw [ho] at h; simp at h
    · rw [ho] at h ⊢
      simp at h
      subst h
      simp [modifiesNothing, Event.modifies]
    · rw [ho] at h ⊢
      simp at h
      subst h
      simp [modifiesNothing, Event.modifies]
    · rw [ho] at h
      simp [Run.after] at h
      exact absurd h (outStage_no_decode _ _ _ _ _ _ _ _ _)

/-- Witness of C5: a corrupt `a.tiff`, both flags set. -/
theorem C5_decode_failure_returned_before_output_witness :
    Event.decode (some (.lib 100)) ∈
      (convertFileIfMatch plainEnv (ascii "a.tiff") (ascii "tiff") (ascii "jpg") true true
        (singleFile (ascii "a.tiff") [0, 7])).trace ∧
    (convertFileIfMatch plainEnv (ascii "a.tiff") (ascii "tiff") (ascii "jpg") true true
      (singleFile (ascii "a.tiff") [0, 7])).outcome = .err (.lib 100) ∧
    (convertFileIfMatch plainEnv (ascii "a.tiff") (ascii "tiff") (ascii "jpg") true true
      (singleFile (ascii "a.tiff") [0, 7])).fs = singleFile (ascii "a.tiff") [0, 7] ∧
    modifiesNothing (convertFileIfMatch plainEnv (ascii "a.tiff") (ascii "tiff") (ascii "jpg")
      true true (singleFile (ascii "a.tiff") [0, 7])).trace = true :=
  ⟨by decide,
    C5_decode_failure_returned_before_output plainEnv (ascii "a.tiff") (ascii "tiff")
      (ascii "jpg") true true (singleFile (ascii "a.tiff") [0, 7]) (.lib 100) (by decide)⟩

/-- C7 (confirmed).  When the source open, the decode and the destination open
of a call succeeded, the encoders the call invokes are determined by the
upper-cased `to` token alone: `JPG` gives exactly one call of the JPEG encoder,
`PNG` of the PNG encoder, `GIF` of the GIF encoder, `BMP` of the BMP encoder,
`TIFF` of the TIFF encoder, and any other token gives no encoder call. -/
theorem C7_encoder_dispatch (env : Env) (name from_ to_ : GoString)
    (quitOnError deleteOriginal : Bool) (fs : FS)
    (_hopen : Event.open name none ∈
      (convertFileIfMatch env name from_ to_ quitOnError deleteOriginal fs).trace)
    (_hdec : Event.decode none ∈
      (convertFileIfMatch env name from_ to_ quitOnError deleteOriginal fs).trace)
    (hout : destOpened (convertFileIfMatch env name from_ to_ quitOnError deleteOriginal fs).trace) :
    (ToUpper env.caseTable to_ = ascii "JPG" →
      encodersInvoked (convertFileIfMatch env name from_ to_ quitOnError deleteOriginal fs).trace
        = [.jpeg]) ∧
    (ToUpper env.caseTable to_ = ascii "PNG" →
      encodersInvoked (convertFileIfMatch env name from_ to_ quitOnError deleteOriginal fs).trace
        = [.png]) ∧
    (ToUpper env.caseTable to_ = ascii "GIF" →
      encodersInvoked (convertFileIfMatch env name from_ to_ quitOnError deleteOriginal fs).trace
        = [.gif]) ∧
    (ToUpper env.caseTable to_ = ascii "BMP" →
      encodersInvoked (convertFileIfMatch env name from_ to_ quitOnError deleteOriginal fs).trace
        = [.bmp]) ∧
    (ToUpper env.caseTable to_ = ascii "TIFF" →
      encodersInvoked (convertFileIfMatch env name from_ to_ quitOnError deleteOriginal fs).trace
        = [.tiff]) ∧
    (ToUpper env.caseTable to_ ≠ ascii "JPG" → ToUpper env.caseTable to_ ≠ ascii "PNG" →
      ToUpper env.caseTable to_ ≠ ascii "GIF" → ToUpper env.caseTable to_ ≠ ascii "BMP" →
      ToUpper env.caseTable to_ ≠ ascii "TIFF" →
      encodersInvoked (convertFileIfMatch env name from_ to_ quitOnError deleteOriginal fs).trace
        = []) := by
  rw [convertFileIfMatch_encoders env name from_ to_ quitOnError deleteOriginal fs hout]
  refine ⟨?_, ?_, ?_, ?_, ?_, ?_⟩
  · intro h; rw [h]; decide
  · intro h; rw [h]; decide
  · intro h; rw [h]; decide
  · intro h; rw [h]; decide
  · intro h; rw [h]; decide
  · intro h1 h2 h3 h4 h5
    simp [selectEncoder, h1, h2, h3, h4, h5]

/-- Witness of C7: the token `jPg` on a sound `a.tiff`. -/
theorem C7_encoder_dispatch_witness :
    ToUpper plainEnv.caseTable (ascii "jPg") = ascii "JPG" ∧
    encodersInvoked (convertFileIfMatch plainEnv (ascii "a.tiff") (ascii "tiff") (ascii "jPg")
      true false (singleFile (ascii "a.tiff") [1, 5, 6])).trace = [.jpeg] :=
  ⟨by decide,
    (C7_encoder_dispatch plainEnv (ascii "a.tiff") (ascii "tiff") (ascii "jPg") true false
      (singleFile (ascii "a.tiff") [1, 5, 6]) (by decide) (by decide)
      ⟨ascii "a.jPg", Or.inl (by decide)⟩).1 (by decide)⟩

/-- C9 (confirmed).  For a `to` token whose upper-case form is none of `JPG`,
`PNG`, `GIF`, `BMP`, `TIFF`: when the source open, the decode and the
destination open succeeded, `convertFileIfMatch` with `deleteOriginal = false`
returns `nil` for either value of `quitOnError`, calls no encoder, and in
particular does not return the "unknown suffix" error. -/
theorem C9_unknown_token_silently_accepted (env : Env) (name from_ to_ : GoString)
    (quitOnError : Bool) (fs : FS)
    (hJ : ToUpper env.caseTable to_ ≠ ascii "JPG") (hP : ToUpper env.caseTable to_ ≠ ascii "PNG")
    (hG : ToUpper env.caseTable to_ ≠ ascii "GIF") (hB : ToUpper env.caseTable to_ ≠ ascii "BMP")
    (hT : ToUpper env.caseTable to_ ≠ ascii "TIFF")
    (_hopen : Event.open name none ∈
      (convertFileIfMatch env name from_ to_ quitOnError false fs).trace)
    (_hdec : Event.decode none ∈
      (convertFileIfMatch env name from_ to_ quitOnError false fs).trace)
    (hout : destOpened (convertFileIfMatch env name from_ to_ quitOnError false fs).trace) :
    (convertFileIfMatch env name from_ to_ quitOnError false fs).outcome = .nil ∧
    encodersInvoked (convertFileIfMatch env name from_ to_ quitOnError false fs).trace = [] ∧
    (convertFileIfMatch env name from_ to_ quitOnError false fs).outcome
      ≠ .err (.unknownSuffix to_) := by
  have hsel : selectEncoder (ToUpper env.caseTable to_) = none := by
    simp [selectEncoder, hJ, hP, hG, hB, hT]
  have henc := convertFileIfMatch_encoders env name from_ to_ quitOnError false fs hout
  rw [hsel] at henc
  have hnil : (convertFileIfMatch env name from_ to_ quitOnError false fs).outcome = .nil := by
    rcases convertFileIfMatch_cases env name from_ to_ quitOnError false fs with
      ⟨_, _, hc⟩ | ⟨_, _, _, hc⟩ | ⟨_, front, _, _, hc⟩
    · rw [hc]
    · rw [hc] at hout; obtain ⟨p, h | h⟩ := hout <;> simp at h
    · rw [hc] at hout ⊢
      rcases openStage_cases env name to_ (front ++ to_) quitOnError false fs with
        ⟨e, _, ho⟩ | ⟨e, _, ho⟩ | ⟨c, e, _, _, ho⟩ | ⟨c, img, _, _, ho⟩
      · rw [ho] at hout; obtain ⟨p, h | h⟩ := hout <;> simp at h
      · rw [ho] at hout; obtain ⟨p, h | h⟩ := hout <;> simp at h
      · rw [ho] at hout; obtain ⟨p, h | h⟩ := hout <;> simp at h
      · rw [ho] at hout ⊢
        simp only [Run.after] at hout ⊢
        rw [destOpened_append] at hout
        rcases hout with h | h
        · obtain ⟨p, h | h⟩ := h <;> simp at h
        · exact outStage_unknown _ _ _ _ _ _ _ hsel h
  refine ⟨hnil, ?_, ?_⟩
  · simpa using henc
  · rw [hnil]; simp

/-- Witness of C9: the token `jpeg` with `quitOnError = true`. -/
theorem C9_unknown_token_silently_accepted_witness :
    destOpened (convertFileIfMatch plainEnv (ascii "a.tiff") (ascii "tiff") (ascii "jpeg") true
      false (singleFile (ascii "a.tiff") [1, 5, 6])).trace ∧
    ((convertFileIfMatch plainEnv (ascii "a.tiff") (ascii "tiff") (ascii "jpeg") true false
      (singleFile (ascii "a.tiff") [1, 5, 6])).outcome = .nil ∧
    encodersInvoked (convertFileIfMatch plainEnv (ascii "a.tiff") (ascii "tiff") (ascii "jpeg")
      true false (singleFile (ascii "a.tiff") [1, 5, 6])).trace = [] ∧
    (convertFileIfMatch plainEnv (ascii "a.tiff") (ascii "tiff") (ascii "jpeg") true false
      (singleFile (ascii "a.tiff") [1, 5, 6])).outcome ≠ .err (.unknownSuffix (ascii "jpeg"))) :=
  ⟨⟨ascii "a.jpeg", Or.inl (by decide)⟩,
    C9_unknown_token_silently_accepted plainEnv (ascii "a.tiff") (ascii "tiff") (ascii "jpeg")
      true (singleFile (ascii "a.tiff") [1, 5, 6]) (by decide) (by decide) (by decide)
      (by decide) (by decide) (by decide) (by decide) ⟨ascii "a.jpeg", Or.inl (by decide)⟩⟩

/-- C4 (counterexample).  With `quitOnError = false`, `deleteOriginal = true`
and a full disk, the JPEG encoder is called on `a.jpg` and fails, the failure
is logged, and `a.tiff` is removed all the same: the source is gone although no
encoder returned without error. -/
theorem C4_source_removed_after_failed_encode :
    Event.encode .jpeg (ascii "a.jpg") (some (.lib 28)) ∈
      (convertFileIfMatch diskFullEnv (ascii "a.tiff") (ascii "tiff") (ascii "jpg") false true
        (singleFile (ascii "a.tiff") [1, 5, 6])).trace ∧
    encodeSucceeded (convertFileIfMatch diskFullEnv (ascii "a.tiff") (ascii "tiff") (ascii "jpg")
      false true (singleFile (ascii "a.tiff") [1, 5, 6])).trace = false ∧
    Event.remove (ascii "a.tiff") none ∈
      (convertFileIfMatch diskFullEnv (ascii "a.tiff") (ascii "tiff") (ascii "jpg") false true
        (singleFile (ascii "a.tiff") [1, 5, 6])).trace ∧
    (convertFileIfMatch diskFullEnv (ascii "a.tiff") (ascii "tiff") (ascii "jpg") false true
      (singleFile (ascii "a.tiff") [1, 5, 6])).fs (ascii "a.tiff") = none := by
  decide

/-- C4 (amended).  For every call of `convertFileIfMatch`:
(1) if the call removes a file `p`, then `p` is `name`, `deleteOriginal` is
true, the decode succeeded and the file at `name` is absent afterwards; when
the upper-cased `to` token is one of `JPG`, `PNG`, `GIF`, `BMP`, `TIFF` the
encoder selected by the token was invoked before (for either value of
`quitOnError`), and with `quitOnError = true` it returned no error;
(2) if `deleteOriginal` is true and an encoder call returned no error, the
removal of `name` is attempted: either it succeeds and the file at `name` is
absent afterwards, or `os.Remove` fails. -/
theorem C4_removal_only_after_decode_and_checked_encode (env : Env) (name from_ to_ : GoString)
    (quitOnError deleteOriginal : Bool) (fs : FS) :
    (∀ p, Event.remove p none ∈
        (convertFileIfMatch env name from_ to_ quitOnError deleteOriginal fs).trace →
      p = name ∧ deleteOriginal = true ∧
      Event.decode none ∈
        (convertFileIfMatch env name from_ to_ quitOnError deleteOriginal fs).trace ∧
      (convertFileIfMatch env name from_ to_ quitOnError deleteOriginal fs).fs name = none ∧
      ((ToUpper env.caseTable to_ = ascii "JPG" ∨ ToUpper env.caseTable to_ = ascii "PNG" ∨
          ToUpper env.caseTable to_ = ascii "GIF" ∨ ToUpper env.caseTable to_ = ascii "BMP" ∨
          ToUpper env.caseTable to_ = ascii "TIFF") →
        ∃ f nn err, selectEncoder (ToUpper env.caseTable to_) = some f ∧ Event.encode f nn err ∈
          (convertFileIfMatch env name from_ to_ quitOnError deleteOriginal fs).trace) ∧
      (quitOnError = true →
        (ToUpper env.caseTable to_ = ascii "JPG" ∨ ToUpper env.caseTable to_ = ascii "PNG" ∨
          ToUpper env.caseTable to_ = ascii "GIF" ∨ ToUpper env.caseTable to_ = ascii "BMP" ∨
          ToUpper env.caseTable to_ = ascii "TIFF") →
        ∃ f nn, selectEncoder (ToUpper env.caseTable to_) = some f ∧ Event.encode f nn none ∈
          (convertFileIfMatch env name from_ to_ quitOnError deleteOriginal fs).trace)) ∧
    (∀ f nn, deleteOriginal = true →
      Event.encode f nn none ∈
        (convertFileIfMatch env name from_ to_ quitOnError deleteOriginal fs).trace →
      (Event.remove name none ∈
          (convertFileIfMatch env name from_ to_ quitOnError deleteOriginal fs).trace ∧
        (convertFileIfMatch env name from_ to_ quitOnError deleteOriginal fs).fs name = none) ∨
      ∃ e, Event.remove name (some e) ∈
        (convertFileIfMatch env name from_ to_ quitOnError deleteOriginal fs).trace) := by
  have hknown : (ToUpper env.caseTable to_ = ascii "JPG" ∨ ToUpper env.caseTable to_ = ascii "PNG" ∨
      ToUpper env.caseTable to_ = ascii "GIF" ∨ ToUpper env.caseTable to_ = ascii "BMP" ∨
      ToUpper env.caseTable to_ = ascii "TIFF") →
      ∃ f, selectEncoder (ToUpper env.caseTable to_) = some f := by
    intro hU
    rcases hU with hU | hU | hU | hU | hU <;> rw [hU]
    · exact ⟨.jpeg, by decide⟩
    · exact ⟨.png, by decide⟩
    · exact ⟨.gif, by decide⟩
    · exact ⟨.bmp, by decide⟩
    · exact ⟨.tiff, by decide⟩
  constructor
  · intro p h
    rcases convertFileIfMatch_cases env name from_ to_ quitOnError deleteOriginal fs with
      ⟨_, _, hc⟩ | ⟨_, _, _, hc⟩ | ⟨_, front, _, _, hc⟩
    · rw [hc] at h; simp at h
    · rw [hc] at h; simp at h
    · rw [hc] at h ⊢
      rcases openStage_cases env name to_ (front ++ to_) quitOnError deleteOriginal fs with
        ⟨e, _, ho⟩ | ⟨e, _, ho⟩ | ⟨c, e, _, _, ho⟩ | ⟨c, img, _, _, ho⟩
      · rw [ho] at h; simp at h
      · rw [ho] at h; simp at h
      · rw [ho] at h; simp at h
      · rw [ho] at h ⊢
        simp only [Run.after, List.cons_append, List.nil_append, List.mem_cons] at h
        rcases h with h | h | h
        · cases h
        · cases h
        · obtain ⟨h1, h2, h3, h4⟩ := outStage_removed _ _ _ _ _ _ _ _ _ h
          refine ⟨h1, h2, by simp [Run.after], h3, ?_, ?_⟩
          · intro hU
            obtain ⟨f, hs⟩ := hknown hU
            obtain ⟨err, hf⟩ := outStage_removed_invoked _ _ _ _ _ _ _ _ _ f hs h
            exact ⟨f, front ++ to_, err, hs, by simp [Run.after, hf]⟩
          · intro hq hU
            obtain ⟨f, hs⟩ := hknown hU
            have hsel : selectEncoder (ToUpper env.caseTable to_) ≠ none := by rw [hs]; simp
            obtain ⟨g, hs', hf⟩ := h4 hq hsel
            exact ⟨g, front ++ to_, hs', by simp [Run.after, hf]⟩
  · intro f nn hd h
    subst hd
    rcases convertFileIfMatch_cases env name from_ to_ quitOnError true fs with
      ⟨_, _, hc⟩ | ⟨_, _, _, hc⟩ | ⟨_, front, _, _, hc⟩
    · rw [hc] at h; simp at h
    · rw [hc] at h; simp at h
    · rw [hc] at h ⊢
      rcases openStage_cases env name to_ (front ++ to_) quitOnError true fs with
        ⟨e, _, ho⟩ | ⟨e, _, ho⟩ | ⟨c, e, _, _, ho⟩ | ⟨c, img, _, _, ho⟩
      · rw [ho] at h; simp at h
      · rw [ho] at h; simp at h
      · rw [ho] at h; simp at h
      · rw [ho] at h ⊢
        simp only [Run.after, List.cons_append, List.nil_append, List.mem_cons] at h
        rcases h with h | h | h
        · cases h
        · cases h
        · rcases outStage_attempt _ _ _ _ _ _ _ _ _ h with ⟨h1, h2⟩ | ⟨e, h1⟩
          · exact Or.inl ⟨by simp [Run.after, h1], by simpa [Run.after] using h2⟩
          · exact Or.inr ⟨e, by simp [Run.after, h1]⟩

/-- Witness of C4: a sound `a.tiff` is converted to `a.jpg` and then removed. -/
theorem C4_removal_only_after_decode_and_checked_encode_witness :
    Event.encode .jpeg (ascii "a.jpg") none ∈
      (convertFileIfMatch plainEnv (ascii "a.tiff") (ascii "tiff") (ascii "jpg") true true
        (singleFile (ascii "a.tiff") [1, 5, 6])).trace ∧
    Event.remove (ascii "a.tiff") none ∈
      (convertFileIfMatch plainEnv (ascii "a.tiff") (ascii "tiff") (ascii "jpg") true true
        (singleFile (ascii "a.tiff") [1, 5, 6])).trace ∧
    (convertFileIfMatch plainEnv (ascii "a.tiff") (ascii "tiff") (ascii "jpg") true true
      (singleFile (ascii "a.tiff") [1, 5, 6])).fs (ascii "a.tiff") = none ∧
    ((Event.remove (ascii "a.tiff") none ∈
        (convertFileIfMatch plainEnv (ascii "a.tiff") (ascii "tiff") (ascii "jpg") true true
          (singleFile (ascii "a.tiff") [1, 5, 6])).trace ∧
      (convertFileIfMatch plainEnv (ascii "a.tiff") (ascii "tiff") (ascii "jpg") true true
        (singleFile (ascii "a.tiff") [1, 5, 6])).fs (ascii "a.tiff") = none) ∨
    ∃ e, Event.remove (ascii "a.tiff") (some e) ∈
      (convertFileIfMatch plainEnv (ascii "a.tiff") (ascii "tiff") (ascii "jpg") true true
        (singleFile (ascii "a.tiff") [1, 5, 6])).trace) :=
  ⟨by decide, by decide,
    ((C4_removal_only_after_decode_and_checked_encode plainEnv (ascii "a.tiff") (ascii "tiff")
      (ascii "jpg") true true (singleFile (ascii "a.tiff") [1, 5, 6])).1
      (ascii "a.tiff") (by decide)).2.2.2.1,
    (C4_removal_only_after_decode_and_checked_encode plainEnv (ascii "a.tiff") (ascii "tiff")
      (ascii "jpg") true true (singleFile (ascii "a.tiff") [1, 5, 6])).2
      .jpeg (ascii "a.jpg") rfl (by decide)⟩

/-- C8 (counterexample).  With `from = to = jpeg` the derived output path of
`a.jpeg` is `a.jpeg` itself: the call with `deleteOriginal = false` returns
`nil`, calls no encoder, and leaves the file truncated to zero bytes. -/
theorem C8_original_truncated_when_output_path_is_name :
    newName plainEnv (ascii "a.jpeg") (ascii "jpeg") (ascii "jpeg") = some (ascii "a.jpeg") ∧
    singleFile (ascii "a.jpeg") [1, 5, 6] (ascii "a.jpeg") = some [1, 5, 6] ∧
    (convertFileIfMatch plainEnv (ascii "a.jpeg") (ascii "jpeg") (ascii "jpeg") true false
      (singleFile (ascii "a.jpeg") [1, 5, 6])).outcome = .nil ∧
    (convertFileIfMatch plainEnv (ascii "a.jpeg") (ascii "jpeg") (ascii "jpeg") true false
      (singleFile (ascii "a.jpeg") [1, 5, 6])).fs (ascii "a.jpeg") = some [] := by
  decide

/-- C8 (amended).  When the derived output path is not `name` itself, a call
`convertFileIfMatch(name, from, to, quitOnError, false)` leaves the file at
`name` as it was: it exists afterwards exactly if it existed before, with the
same bytes. -/
theorem C8_original_preserved_when_output_path_differs (env : Env) (name from_ to_ : GoString)
    (quitOnError : Bool) (fs : FS) (hne : newName env name from_ to_ ≠ some name) :
    (convertFileIfMatch env name from_ to_ quitOnError false fs).fs name = fs name := by
  rcases convertFileIfMatch_cases env name from_ to_ quitOnError false fs with
    ⟨_, _, hc⟩ | ⟨_, _, _, hc⟩ | ⟨_, front, _, hn, hc⟩
  · rw [hc]
  · rw [hc]
  · rw [hc]
    have hnn : name ≠ front ++ to_ := by
      intro heq
      apply hne
      rw [hn, ← heq]
    rcases openStage_cases env name to_ (front ++ to_) quitOnError false fs with
      ⟨e, _, ho⟩ | ⟨e, _, ho⟩ | ⟨c, e, _, _, ho⟩ | ⟨c, img, _, _, ho⟩
    · rw [ho]
    · rw [ho]
    · rw [ho]
    · rw [ho]
      simp only [Run.after]
      exact outStage_frame _ _ _ _ _ _ _ _ _ (Or.inl rfl) hnn

/-- Witness of C8: `a.tiff` converted to `a.jpg`. -/
theorem C8_original_preserved_when_output_path_differs_witness :
    newName plainEnv (ascii "a.tiff") (ascii "tiff") (ascii "jpg") ≠ some (ascii "a.tiff") ∧
    (convertFileIfMatch plainEnv (ascii "a.tiff") (ascii "tiff") (ascii "jpg") true false
      (singleFile (ascii "a.tiff") [1, 5, 6])).fs (ascii "a.tiff")
      = singleFile (ascii "a.tiff") [1, 5, 6] (ascii "a.tiff") :=
  ⟨by decide,
    C8_original_preserved_when_output_path_differs plainEnv (ascii "a.tiff") (ascii "tiff")
      (ascii "jpg") true (singleFile (ascii "a.tiff") [1, 5, 6]) (by decide)⟩

/-- C6 (code at the failing input).  The target `a.tiff` is an existing file
that is not an image.  With `quitOnError = false`, `traverse` returns the
decode error and the process exits with status 1 (nothing is written); the
same file met as an entry of the directory `d` is logged as non-fatal, and
`traverse` returns `nil` with exit status 0. -/
theorem C6_corrupt_single_file_is_fatal :
    (traverse plainEnv (ascii "tiff") (ascii "jpg") false false .file (ascii "a.tiff")
      (singleFile (ascii "a.tiff") [0, 7])).outcome = .err (.lib 100) ∧
    mainStatus plainEnv .file (ascii "a.tiff") (ascii "tiff") (ascii "jpg") false false
      (singleFile (ascii "a.tiff") [0, 7]) = 1 ∧
    modifiesNothing (traverse plainEnv (ascii "tiff") (ascii "jpg") false false .file
      (ascii "a.tiff") (singleFile (ascii "a.tiff") [0, 7])).trace = true ∧
    (traverse plainEnv (ascii "tiff") (ascii "jpg") false false
      (.dir (.file (ascii "a.tiff") .nil)) (ascii "d")
      (singleFile (ascii "d/a.tiff") [0, 7])).outcome = .nil ∧
    mainStatus plainEnv (.dir (.file (ascii "a.tiff") .nil)) (ascii "d") (ascii "tiff")
      (ascii "jpg") false false (singleFile (ascii "d/a.tiff") [0, 7]) = 0 := by
  decide

/-- C3 (code at the failing input).  The directory `t` holds the sub-directory
`sub` with a corrupt `bad.tiff`, and after it a sound `z.tiff`.  With
`quitOnError = true` the call on `t/sub` returns the decode error, but the call
on `t` drops it: it goes on to convert `t/z.tiff` and returns `nil`. -/
theorem C3_nested_failure_is_dropped :
    (traverse plainEnv (ascii "tiff") (ascii "jpg") true false
      (.dir (.file (ascii "bad.tiff") .nil)) (ascii "t/sub")
      (twoFiles (ascii "t/sub/bad.tiff") [0, 7] (ascii "t/z.tiff") [1, 5, 6])).outcome
      = .err (.lib 100) ∧
    Event.decode (some (.lib 100)) ∈
      (traverse plainEnv (ascii "tiff") (ascii "jpg") true false nestedTree (ascii "t")
        (twoFiles (ascii "t/sub/bad.tiff") [0, 7] (ascii "t/z.tiff") [1, 5, 6])).trace ∧
    (traverse plainEnv (ascii "tiff") (ascii "jpg") true false nestedTree (ascii "t")
      (twoFiles (ascii "t/sub/bad.tiff") [0, 7] (ascii "t/z.tiff") [1, 5, 6])).outcome = .nil ∧
    Event.encode .jpeg (ascii "t/z.jpg") none ∈
      (traverse plainEnv (ascii "tiff") (ascii "jpg") true false nestedTree (ascii "t")
        (twoFiles (ascii "t/sub/bad.tiff") [0, 7] (ascii "t/z.tiff") [1, 5, 6])).trace ∧
    (traverse plainEnv (ascii "tiff") (ascii "jpg") true false nestedTree (ascii "t")
      (twoFiles (ascii "t/sub/bad.tiff") [0, 7] (ascii "t/z.tiff") [1, 5, 6])).fs (ascii "t/z.jpg")
      = some [10, 5, 6] := by
  decide

/-- C1 (code at the failing input).  For the name `ılık.tiff` with
`from = tiff` and `to = jpg` the suffix matches, but the index is taken in the
upper-cased name `ILIK.TIFF`, which is two bytes shorter: the output path is
`ılıjpg`, not `ılık.jpg`, and that is the file the run creates. -/
theorem C1_output_path_loses_bytes :
    HasSuffix (ToUpper plainEnv.caseTable dotlessName) (ToUpper plainEnv.caseTable (ascii "tiff"))
      = true ∧
    dotlessName.take (dotlessName.length - (ascii "tiff").length) ++ ascii "jpg"
      = [0xC4, 0xB1, 0x6C, 0xC4, 0xB1, 0x6B, 0x2E] ++ ascii "jpg" ∧
    newName plainEnv dotlessName (ascii "tiff") (ascii "jpg")
      = some ([0xC4, 0xB1, 0x6C, 0xC4, 0xB1] ++ ascii "jpg") ∧
    Event.create ([0xC4, 0xB1, 0x6C, 0xC4, 0xB1] ++ ascii "jpg") none ∈
      (convertFileIfMatch plainEnv dotlessName (ascii "tiff") (ascii "jpg") true false
        (singleFile dotlessName [1, 5, 6])).trace := by
  decide

/-- C2 (code at the failing input).  The name `ɐɐɐɐɐ.tiff` matches `tiff` and
the file exists, yet the call panics at the name split and performs no step:
the file is never opened. -/
theorem C2_matching_file_not_opened :
    HasSuffix (ToUpper plainEnv.caseTable turnedTiffName)
      (ToUpper plainEnv.caseTable (ascii "tiff")) = true ∧
    singleFile turnedTiffName [1, 5, 6] turnedTiffName = some [1, 5, 6] ∧
    (convertFileIfMatch plainEnv turnedTiffName (ascii "tiff") (ascii "jpg") true false
      (singleFile turnedTiffName [1, 5, 6])).outcome = .panic ∧
    (convertFileIfMatch plainEnv turnedTiffName (ascii "tiff") (ascii "jpg") true false
      (singleFile turnedTiffName [1, 5, 6])).trace = [] := by
  decide

/-- C10 (code at the failing input).  For the name `ɐɐa` (5 bytes) and
`from = a` the suffix matches and `indexOfLast` is 6, beyond the length of the
name: the slice `name[0:indexOfLast]` is out of range and the call panics. -/
theorem C10_slice_out_of_range :
    HasSuffix (ToUpper plainEnv.caseTable turnedName) (ToUpper plainEnv.caseTable (ascii "a"))
      = true ∧
    indexOfLast plainEnv turnedName (ascii "a") = 6 ∧
    turnedName.length = 5 ∧
    sliceTo turnedName (indexOfLast plainEnv turnedName (ascii "a")) = none ∧
    (convertFileIfMatch plainEnv turnedName (ascii "a") (ascii "jpg") true false
      (singleFile turnedName [1, 5, 6])).outcome = .panic := by
  decide

end BatchImageConverter
